import Mathlib

/-!
Verification of the frame-capture handoff pipeline of
`protogen_renderer_bevy` (a headless bevy renderer that copies each
rendered frame from the GPU into a staging buffer, ships the raw bytes
over a channel into the main world, strips row padding and saves the
image).

The development shallowly embeds the three source files:
  * `src/image_grab/image_copy.rs` — `ImageCopier`, the render-graph copy
    node `ImageCopyDriver::run` and `receive_image_from_buffer`;
  * `src/main.rs` — the consumer-side system `save_frame`;
  * `src/scene/scene_controller.rs` — `SceneState`.

Bytes are modelled as `Nat`, buffers and channel contents as `List Nat`
resp. `List (List Nat)` (frames in push order).  Machine integers in the
source are `u32`/`usize` used far below their ranges, so plain `Nat`
arithmetic is faithful.
-/

/-- Modelled from the spec: the AlignedCopyPlanner contract — given an
unpadded row byte-width `U` and a row-alignment requirement `A`, return
`ceil(U / A) * A`.  This models `RenderDevice::align_copy_bytes_per_row`
from the bevy dependency (not part of this repository's sources),
generalised over the alignment constant. -/
def alignUpTo (A U : Nat) : Nat := ((U + A - 1) / A) * A

/-- Modelled from the spec: the device row-alignment constant
(`wgpu::COPY_BYTES_PER_ROW_ALIGNMENT`), "a power-of-two byte count,
e.g. 256". -/
def copyBytesPerRowAlignment : Nat := 256

/-- `RenderDevice::align_copy_bytes_per_row` as called by the repository:
the planner at the device's fixed alignment constant. -/
def alignCopyBytesPerRow (rowBytes : Nat) : Nat :=
  alignUpTo copyBytesPerRowAlignment rowBytes

/-- Modelled from the spec: the pixel format is `TextureFormat::bevy_default()`
(RGBA, "4-byte pixels"), whose block width in texels is 1. -/
def blockDim : Nat := 1

/-- Modelled from the spec: the copy size in bytes of one block of the
RGBA render-target format ("4-byte pixels"). -/
def blockSize : Nat := 4

/-- Modelled from the spec: `format.pixel_size()` of the RGBA cpu-image
format used by `save_frame` ("4-byte pixels"). -/
def pixelSize : Nat := 4

/-- `SceneState` from `src/scene/scene_controller.rs`: `BuildScene` before
any rendering, `Render n` with the number of frames remaining before the
image is saved. -/
inductive SceneState where
  | BuildScene : SceneState
  | Render : Nat → SceneState
deriving DecidableEq, Repr

/-- Fuel-driven splitting of a list into consecutive chunks of `n`
elements (the last chunk may be shorter).  With `fuel ≥ l.length` and
`0 < n` this is Rust's `slice::chunks(n)`. -/
def chunksFuel (n : Nat) : Nat → List Nat → List (List Nat)
  | _, [] => []
  | 0, _ :: _ => []
  | fuel + 1, a :: l => ((a :: l).take n) :: chunksFuel n fuel ((a :: l).drop n)

/-- Rust's `slice::chunks(n)` on byte slices (total; meaningful for
`0 < n`, the only way the source calls it). -/
def chunks (n : Nat) (l : List Nat) : List (List Nat) := chunksFuel n l.length l

/-- The padding-strip computation of `save_frame` (`src/main.rs`, the
`else` branch): `image_data.chunks(aligned_row_bytes).take(height)
.flat_map(|row| &row[..row_bytes.min(row.len())])`. -/
def stripChunks (rowBytes alignedRowBytes height : Nat) (data : List Nat) : List Nat :=
  (((chunks alignedRowBytes data).take height).map
    (fun row => row.take (min rowBytes row.length))).flatten

/-- The full padding-removal step of `save_frame`: when
`row_bytes == aligned_row_bytes` the frame is cloned verbatim, otherwise
the data is shrunk to the original image size by `stripChunks`. -/
def stripPadding (rowBytes alignedRowBytes height : Nat) (data : List Nat) : List Nat :=
  if rowBytes = alignedRowBytes then data
  else stripChunks rowBytes alignedRowBytes height data

/-- The drain loop of `save_frame`:
`let mut image_data = Vec::new(); while let Ok(data) = receiver.try_recv()
{ image_data = data; }` — the result is the last frame received, or the
initial accumulator when the channel is empty. -/
def drainLoop : List (List Nat) → List Nat → List Nat
  | [], acc => acc
  | d :: rest, _ => drainLoop rest d

/-- Observable outcome of one invocation of the `save_frame` system:
the scene state afterwards, what is left in the channel, the (stripped)
image bytes saved this tick, how many `AppExit` messages were written,
and the file counter. -/
structure SaveFrameResult where
  state : SceneState
  channel : List (List Nat)
  saved : List (List Nat)
  exits : Nat
  fileNumber : Nat
deriving DecidableEq, Repr

/-- The consumer-side system `save_frame` of `src/main.rs`, for the single
`ImageToSave` target of width `width` and height `height` spawned by
`setup`.  In `Render n` with `n < 1` the channel is drained keeping only
the last frame; a non-empty frame is shrunk to the original image size
and saved, and in single-image mode one `AppExit` is written.  In
`Render n` with `n ≥ 1` the channel is cleared and the counter
decrements.  `BuildScene` does nothing. -/
def save_frame (width height : Nat) (single_image : Bool)
    (state : SceneState) (channel : List (List Nat)) (fileNumber : Nat) :
    SaveFrameResult :=
  match state with
  | SceneState.BuildScene =>
    { state := SceneState.BuildScene, channel := channel, saved := [],
      exits := 0, fileNumber := fileNumber }
  | SceneState.Render n =>
    if n < 1 then
      let image_data := drainLoop channel []
      if image_data.isEmpty then
        { state := SceneState.Render n, channel := [], saved := [],
          exits := 0, fileNumber := fileNumber }
      else
        { state := SceneState.Render n, channel := [],
          saved := [stripPadding (width * pixelSize)
            (alignCopyBytesPerRow (width * pixelSize)) height image_data],
          exits := if single_image then 1 else 0,
          fileNumber := fileNumber + 1 }
    else
      { state := SceneState.Render (n - 1), channel := [], saved := [],
        exits := 0, fileNumber := fileNumber }

/-- One capture target (`ImageCopier` of `src/image_grab/image_copy.rs`):
render-target dimensions, the shared `enabled` flag, and the current
contents of the staging buffer. -/
structure ImageCopier where
  width : Nat
  height : Nat
  enabled : Bool
  buffer : List Nat
deriving DecidableEq, Repr

/-- The staging-buffer size allocated by `ImageCopier::new`:
`align_copy_bytes_per_row(size.width as usize) * 4` bytes per row (the
alignment is applied to the width in *pixels*, then scaled by 4) times
`size.height` rows. -/
def imageCopierBufferSize (width height : Nat) : Nat :=
  alignCopyBytesPerRow width * 4 * height

/-- Refinement target, following the spec's words: `PaddedLayout.total_size`
= padded-row-bytes × height, where padded-row-bytes is the
alignment-rounded byte width of one unpadded row (`4·W` bytes for 4-byte
pixels). -/
def paddedLayoutTotalSize (width height : Nat) : Nat :=
  alignCopyBytesPerRow (pixelSize * width) * height

/-- The parameters of the `copy_texture_to_buffer` command issued by the
render-graph node. -/
structure CopyCommand where
  offset : Nat
  bytesPerRow : Nat
  rowsPerImage : Option Nat
  width : Nat
  height : Nat
deriving DecidableEq, Repr

/-- The copy command `ImageCopyDriver::run` encodes for one enabled
copier: `bytes_per_row` is
`align_copy_bytes_per_row((width / block_dimensions.0) * block_size)`,
`offset` 0, `rows_per_image` `None`, copying the whole source extent. -/
def imageCopyCommand (c : ImageCopier) : CopyCommand :=
  { offset := 0,
    bytesPerRow := alignCopyBytesPerRow (c.width / blockDim * blockSize),
    rowsPerImage := none,
    width := c.width, height := c.height }

/-- The loop body of `ImageCopyDriver::run` over the extracted copiers:
a disabled copier is skipped (`continue`), an enabled one gets exactly
one copy command submitted. -/
def imageCopyDriverRun (copiers : List ImageCopier) : List CopyCommand :=
  copiers.filterMap (fun c => if c.enabled then some (imageCopyCommand c) else none)

/-- `receive_image_from_buffer`: for each enabled copier the whole mapped
staging buffer (`buffer_slice = buffer.slice(..)`,
`get_mapped_range().to_vec()`) is pushed into the channel; a disabled
copier is skipped. -/
def receive_image_from_buffer (copiers : List ImageCopier) : List (List Nat) :=
  copiers.filterMap (fun c => if c.enabled then some c.buffer else none)

/-- One capture target at producer tick `t`: the staging-buffer contents
may change from tick to tick (the device writes into it), the `enabled`
flag and dimensions do not. -/
def copierAtTick (c : ImageCopier) (bufs : Nat → List Nat) (t : Nat) : ImageCopier :=
  { c with buffer := bufs t }

/-- All copy commands issued for one target over the first `n` producer
ticks. -/
def commandsUpTo (c : ImageCopier) (bufs : Nat → List Nat) : Nat → List CopyCommand
  | 0 => []
  | n + 1 => commandsUpTo c bufs n ++ imageCopyDriverRun [copierAtTick c bufs n]

/-- All frames pushed into the channel for one target over the first `n`
producer ticks. -/
def pushesUpTo (c : ImageCopier) (bufs : Nat → List Nat) : Nat → List (List Nat)
  | 0 => []
  | n + 1 => pushesUpTo c bufs n ++ receive_image_from_buffer [copierAtTick c bufs n]

/-- Modelled from the spec: the device copy lays each tightly packed
source row into the first `U` bytes of a `P`-byte chunk of the staging
buffer, the remainder of the chunk being padding. -/
def packPadded (U P : Nat) (rows : List (List Nat)) : List Nat :=
  (rows.map (fun r => r ++ List.replicate (P - U) 0)).flatten

/-- Consumer-side session state threaded through successive `save_frame`
ticks: scene state, pending channel contents, file counter, and the
cumulative number of saves and `AppExit` messages. -/
structure Session where
  st : SceneState
  channel : List (List Nat)
  fileNumber : Nat
  savedCount : Nat
  exitCount : Nat
deriving DecidableEq, Repr

/-- One consumer tick: the frames `arriving` pushed since the last tick
join the channel, `save_frame` runs, and the cumulative counters grow by
what this tick saved and emitted. -/
def stepSession (W H : Nat) (si : Bool) (s : Session) (arriving : List (List Nat)) :
    Session :=
  let r := save_frame W H si s.st (s.channel ++ arriving) s.fileNumber
  { st := r.state, channel := r.channel, fileNumber := r.fileNumber,
    savedCount := s.savedCount + r.saved.length,
    exitCount := s.exitCount + r.exits }

/-- A run of consumer ticks with per-tick arrivals; the host application
terminates the session as soon as an `AppExit` message has been written,
so the run stops after the first tick whose cumulative exit count is
non-zero. -/
def runSession (W H : Nat) (si : Bool) : Session → List (List (List Nat)) → Session
  | s, [] => s
  | s, a :: rest =>
    let t := stepSession W H si s a
    if t.exitCount = 0 then runSession W H si t rest else t

/-! ## Arithmetic facts about the planner -/

theorem alignUpTo_bounds (A U : Nat) (hA : 0 < A) :
    U ≤ alignUpTo A U ∧ alignUpTo A U % A = 0 ∧ alignUpTo A U < U + A := by
  unfold alignUpTo
  refine ⟨?_, Nat.mul_mod_left _ _, ?_⟩
  · have h1 : A * ((U + A - 1) / A) + (U + A - 1) % A = U + A - 1 :=
      Nat.div_add_mod (U + A - 1) A
    have h2 : (U + A - 1) % A < A := Nat.mod_lt _ hA
    rw [Nat.mul_comm]
    omega
  · have h1 : A * ((U + A - 1) / A) + (U + A - 1) % A = U + A - 1 :=
      Nat.div_add_mod (U + A - 1) A
    rw [Nat.mul_comm]
    omega

theorem alignCopyBytesPerRow_eq (U : Nat) :
    alignCopyBytesPerRow U = ((U + 255) / 256) * 256 := rfl

theorem alignCopyBytesPerRow_ge (U : Nat) : U ≤ alignCopyBytesPerRow U := by
  rw [alignCopyBytesPerRow_eq]; omega

theorem alignCopyBytesPerRow_zero_iff (U : Nat) :
    alignCopyBytesPerRow U = 0 ↔ U = 0 := by
  rw [alignCopyBytesPerRow_eq]; omega

/-- C4: for every unpadded row byte-width `U > 0` and every power-of-two
alignment `A = 2^k`, the planner's padded row width `P = ceil(U/A)·A`
satisfies `P ≥ U`, `P % A = 0` and `P < U + A`; in particular the
repository's instance `alignCopyBytesPerRow` (A = 256) satisfies all
three. -/
theorem planner_padded_row_bounds (U k : Nat) (_hU : 0 < U) :
    (U ≤ alignUpTo (2 ^ k) U ∧ alignUpTo (2 ^ k) U % 2 ^ k = 0 ∧
      alignUpTo (2 ^ k) U < U + 2 ^ k) ∧
    (U ≤ alignCopyBytesPerRow U ∧ alignCopyBytesPerRow U % 256 = 0 ∧
      alignCopyBytesPerRow U < U + 256) := by
  constructor
  · exact alignUpTo_bounds (2 ^ k) U (Nat.pos_pow_of_pos k (by decide))
  · have h := alignUpTo_bounds 256 U (by decide)
    exact h

/-- C4 witness: the bounds at `U = 12`, `A = 2^4 = 16`, and at the
device constant 256. -/
theorem planner_padded_row_bounds_witness :
    (12 ≤ alignUpTo (2 ^ 4) 12 ∧ alignUpTo (2 ^ 4) 12 % 2 ^ 4 = 0 ∧
      alignUpTo (2 ^ 4) 12 < 12 + 2 ^ 4) ∧
    (12 ≤ alignCopyBytesPerRow 12 ∧ alignCopyBytesPerRow 12 % 256 = 0 ∧
      alignCopyBytesPerRow 12 < 12 + 256) :=
  planner_padded_row_bounds 12 4 (by decide)

/-- C2: the padded bytes-per-row of the copy command issued by the
render-graph node (write side) equals the `aligned_row_bytes` the
sequencer computes in `save_frame` to strip padding (read side): both
are the one alignment function applied to the same unpadded row
byte-width `width × 4` of the target's fixed width. -/
theorem alignment_write_read_agree (c : ImageCopier) :
    (imageCopyCommand c).bytesPerRow =
      alignCopyBytesPerRow (c.width * pixelSize) ∧
    (imageCopyCommand c).bytesPerRow =
      alignCopyBytesPerRow (c.width / blockDim * blockSize) := by
  constructor
  · show alignCopyBytesPerRow (c.width / blockDim * blockSize) = _
    rw [blockDim, blockSize, pixelSize, Nat.div_one]
  · rfl

/-! ## Facts about the chunk splitter -/

theorem chunksFuel_fuel_irrel (n : Nat) (hn : 0 < n) :
    ∀ (f g : Nat) (l : List Nat), l.length ≤ f → l.length ≤ g →
      chunksFuel n f l = chunksFuel n g l := by
  intro f
  induction f with
  | zero =>
    intro g l hf _
    have : l = [] := List.eq_nil_of_length_eq_zero (Nat.le_zero.mp hf)
    subst this
    cases g <;> rfl
  | succ f ih =>
    intro g l hf hg
    cases l with
    | nil => cases g <;> rfl
    | cons a t =>
      cases g with
      | zero => simp at hg
      | succ g =>
        simp only [chunksFuel]
        congr 1
        apply ih
        · rw [List.length_drop]
          simp only [List.length_cons] at hf ⊢
          omega
        · rw [List.length_drop]
          simp only [List.length_cons] at hg ⊢
          omega

theorem chunks_nil (n : Nat) : chunks n [] = [] := rfl

theorem chunks_eq_cons (n : Nat) (hn : 0 < n) (l : List Nat) (hl : l ≠ []) :
    chunks n l = l.take n :: chunks n (l.drop n) := by
  cases l with
  | nil => exact absurd rfl hl
  | cons a t =>
    show chunksFuel n (t.length + 1) (a :: t) = _
    simp only [chunksFuel]
    congr 1
    apply chunksFuel_fuel_irrel n hn
    · rw [List.length_drop]
      simp only [List.length_cons]
      omega
    · exact Nat.le_refl _

theorem chunks_flatten_of_uniform (n : Nat) (hn : 0 < n) :
    ∀ rows : List (List Nat), (∀ r ∈ rows, r.length = n) →
      chunks n rows.flatten = rows := by
  intro rows
  induction rows with
  | nil => intro _; rfl
  | cons r rest ih =>
    intro hr
    have hrn : r.length = n := hr r (List.mem_cons_self r rest)
    have hne : r ++ rest.flatten ≠ [] := by
      intro h
      rw [List.append_eq_nil] at h
      rw [h.1] at hrn
      simp at hrn
      omega
    rw [List.flatten_cons, chunks_eq_cons n hn _ hne]
    have htake : (r ++ rest.flatten).take n = r := by
      rw [← hrn]; exact List.take_left r rest.flatten
    have hdrop : (r ++ rest.flatten).drop n = rest.flatten := by
      rw [← hrn]; exact List.drop_left r rest.flatten
    rw [htake, hdrop, ih (fun x hx => hr x (List.mem_cons_of_mem r hx))]

theorem chunksFuel_flatten (n : Nat) (hn : 0 < n) :
    ∀ (f : Nat) (l : List Nat), l.length ≤ f → (chunksFuel n f l).flatten = l := by
  intro f
  induction f with
  | zero =>
    intro l hf
    have : l = [] := List.eq_nil_of_length_eq_zero (Nat.le_zero.mp hf)
    subst this; rfl
  | succ f ih =>
    intro l hf
    cases l with
    | nil => rfl
    | cons a t =>
      simp only [chunksFuel, List.flatten_cons]
      rw [ih]
      · exact List.take_append_drop n (a :: t)
      · rw [List.length_drop]
        simp only [List.length_cons] at hf ⊢
        omega

theorem chunks_flatten (n : Nat) (hn : 0 < n) (l : List Nat) :
    (chunks n l).flatten = l :=
  chunksFuel_flatten n hn l.length l (Nat.le_refl _)

theorem chunksFuel_mem_length_le (n : Nat) :
    ∀ (f : Nat) (l : List Nat), ∀ r ∈ chunksFuel n f l, r.length ≤ n := by
  intro f
  induction f with
  | zero =>
    intro l r hr
    cases l <;> simp [chunksFuel] at hr
  | succ f ih =>
    intro l r hr
    cases l with
    | nil => simp [chunksFuel] at hr
    | cons a t =>
      simp only [chunksFuel, List.mem_cons] at hr
      rcases hr with h | h
      · subst h
        have := List.length_take n (a :: t)
        omega
      · exact ih _ r h

theorem flatten_length_le (U : Nat) :
    ∀ rows : List (List Nat), (∀ r ∈ rows, r.length ≤ U) →
      rows.flatten.length ≤ U * rows.length := by
  intro rows
  induction rows with
  | nil => intro _; simp
  | cons r rest ih =>
    intro hr
    have h1 : r.length ≤ U := hr r (List.mem_cons_self r rest)
    have h2 := ih (fun x hx => hr x (List.mem_cons_of_mem r hx))
    simp only [List.flatten_cons, List.length_append, List.length_cons]
    calc r.length + rest.flatten.length ≤ U + U * rest.length := by omega
    _ = U * (rest.length + 1) := by ring

/-- C10: the padding-strip computation is total on inputs of every
length: `chunks` merely re-groups the input (its flattening restores the
data exactly, so nothing out of bounds is read), every chunk has at most
`alignedRowBytes` bytes, at most `height` rows are kept, and the output
never exceeds `rowBytes × height` bytes — an over-long frame is trimmed
and a short one truncated rather than failing. -/
theorem strip_total (rowBytes alignedRowBytes height : Nat)
    (data : List Nat) (hA : 0 < alignedRowBytes) :
    (chunks alignedRowBytes data).flatten = data ∧
    (((chunks alignedRowBytes data).map List.length).all
      (fun x => decide (x ≤ alignedRowBytes))) = true ∧
    ((chunks alignedRowBytes data).take height).length ≤ height ∧
    stripChunks rowBytes alignedRowBytes height data =
      (((chunks alignedRowBytes data).take height).map
        (fun row => row.take (min rowBytes row.length))).flatten ∧
    (stripChunks rowBytes alignedRowBytes height data).length ≤
      rowBytes * height := by
  refine ⟨chunks_flatten _ hA data, ?_, ?_, rfl, ?_⟩
  · simp only [List.all_eq_true, List.mem_map, decide_eq_true_eq]
    rintro x ⟨r, hr, rfl⟩
    exact chunksFuel_mem_length_le _ _ _ r hr
  · have := List.length_take height (chunks alignedRowBytes data)
    omega
  · unfold stripChunks
    have hb : ∀ r ∈ ((chunks alignedRowBytes data).take height).map
        (fun row => row.take (min rowBytes row.length)), r.length ≤ rowBytes := by
      simp only [List.mem_map]
      rintro x ⟨r, _, rfl⟩
      have := List.length_take (min rowBytes r.length) r
      omega
    have h1 := flatten_length_le rowBytes _ hb
    have h2 : (((chunks alignedRowBytes data).take height).map
        (fun row => row.take (min rowBytes row.length))).length ≤ height := by
      have h3 := List.length_take height (chunks alignedRowBytes data)
      simp only [List.length_map]
      omega
    calc (((chunks alignedRowBytes data).take height).map
        (fun row => row.take (min rowBytes row.length))).flatten.length
        ≤ rowBytes * (((chunks alignedRowBytes data).take height).map
          (fun row => row.take (min rowBytes row.length))).length := h1
    _ ≤ rowBytes * height := Nat.mul_le_mul_left _ h2

/-- C10 witness: strip at `rowBytes = 12`, `alignedRowBytes = 16`,
`height = 2` on a 40-byte frame (over-long by one partial chunk). -/
theorem strip_total_witness :
    ((chunks 16 (List.replicate 40 7)).flatten = List.replicate 40 7 ∧
    (((chunks 16 (List.replicate 40 7)).map List.length).all
      (fun x => decide (x ≤ 16))) = true ∧
    ((chunks 16 (List.replicate 40 7)).take 2).length ≤ 2 ∧
    stripChunks 12 16 2 (List.replicate 40 7) =
      (((chunks 16 (List.replicate 40 7)).take 2).map
        (fun row => row.take (min 12 row.length))).flatten ∧
    (stripChunks 12 16 2 (List.replicate 40 7)).length ≤ 12 * 2) :=
  strip_total 12 16 2 (List.replicate 40 7) (by decide)

/-! ## Round trip: producer-side packing then consumer-side stripping -/

theorem pack_strip_general (U P H : Nat) (hle : U ≤ P)
    (rows : List (List Nat)) (hH : rows.length = H)
    (hU : ∀ r ∈ rows, r.length = U) :
    stripPadding U P H (packPadded U P rows) = rows.flatten := by
  unfold stripPadding
  by_cases hUP : U = P
  · rw [if_pos hUP]
    unfold packPadded
    have h0 : P - U = 0 := by omega
    rw [h0]
    simp
  · rw [if_neg hUP]
    have hP : 0 < P := by omega
    unfold packPadded stripChunks
    have hrows : ∀ r ∈ rows.map (fun r => r ++ List.replicate (P - U) 0),
        r.length = P := by
      simp only [List.mem_map]
      rintro x ⟨r, hr, rfl⟩
      rw [List.length_append, hU r hr, List.length_replicate]
      omega
    rw [chunks_flatten_of_uniform P hP _ hrows]
    rw [List.take_of_length_le (by rw [List.length_map, hH])]
    rw [List.map_map]
    congr 1
    have : ∀ r ∈ rows,
        ((fun row => row.take (min U row.length)) ∘
          (fun r => r ++ List.replicate (P - U) 0)) r = id r := by
      intro r hr
      simp only [Function.comp_apply, id_eq]
      have hlen : (r ++ List.replicate (P - U) 0).length = P := by
        rw [List.length_append, hU r hr, List.length_replicate]
        omega
      rw [hlen, Nat.min_eq_left hle, ← hU r hr]
      exact List.take_left r _
    rw [List.map_congr_left this, List.map_id]

/-- C3: round-trip identity — laying the tightly packed rows of a
`W × H` image into a padded buffer with the producer-side layout (each
row in the first `W·4` bytes of a padded-row-bytes chunk) and then
applying the consumer-side strip step of `save_frame` yields the
original tightly packed image, covering both the aligned
(`padded = unpadded`) and the strictly padded case. -/
theorem pack_strip_roundtrip (W H : Nat) (rows : List (List Nat))
    (hH : rows.length = H)
    (hU : ∀ r ∈ rows, r.length = W * pixelSize) :
    stripPadding (W * pixelSize) (alignCopyBytesPerRow (W * pixelSize)) H
      (packPadded (W * pixelSize) (alignCopyBytesPerRow (W * pixelSize)) rows)
      = rows.flatten :=
  pack_strip_general _ _ H (alignCopyBytesPerRow_ge _) rows hH hU

/-- C3 witness: a 1×1 image (unpadded row 4 bytes, padded row 256 bytes,
strictly padded) round-trips. -/
theorem pack_strip_roundtrip_witness :
    stripPadding (1 * pixelSize) (alignCopyBytesPerRow (1 * pixelSize)) 1
      (packPadded (1 * pixelSize) (alignCopyBytesPerRow (1 * pixelSize))
        [[1, 2, 3, 4]])
      = [[1, 2, 3, 4]].flatten :=
  pack_strip_roundtrip 1 1 [[1, 2, 3, 4]] (by decide) (by decide)

/-! ## The consumer-tick state machine -/

theorem drainLoop_append_last (x : List Nat) :
    ∀ (ch : List (List Nat)) (acc : List Nat), drainLoop (ch ++ [x]) acc = x := by
  intro ch
  induction ch with
  | nil => intro acc; rfl
  | cons d rest ih => intro acc; exact ih d

theorem drainLoop_cons_cons (f1 f2 : List Nat) :
    ∀ (ch : List (List Nat)) (acc : List Nat),
      drainLoop (f1 :: f2 :: ch) acc = drainLoop (f2 :: ch) f1 := by
  intro ch acc; rfl

/-- C5: the tick transitions of the capture state machine — a consumer
tick in `Render (n+1)` empties the channel, discards every frame (nothing
saved, nothing emitted) and moves to `Render n`; a tick in `Render 0`
leaves the state at `Render 0`; a tick in `BuildScene` changes nothing. -/
theorem capture_state_transitions (W H : Nat) (si : Bool) (n fn : Nat)
    (ch : List (List Nat)) :
    save_frame W H si (SceneState.Render (n + 1)) ch fn =
      { state := SceneState.Render n, channel := [], saved := [],
        exits := 0, fileNumber := fn } ∧
    (save_frame W H si (SceneState.Render 0) ch fn).state =
      SceneState.Render 0 ∧
    save_frame W H si SceneState.BuildScene ch fn =
      { state := SceneState.BuildScene, channel := ch, saved := [],
        exits := 0, fileNumber := fn } := by
  refine ⟨?_, ?_, rfl⟩
  · simp [save_frame]
  · simp only [save_frame]
    split
    · split <;> rfl
    · simp_all

/-- C6: `drain_latest` semantics — after pushes `f1, f2, f3` one drain
returns `f3` and a tick consuming the channel leaves it empty; a drain of
the empty channel returns the "none available" sentinel (the empty byte
vector) and the `Render 0` tick is then a complete no-op for saving. -/
theorem drain_latest_semantics (f1 f2 : List Nat) (b : Nat) (t : List Nat)
    (W H : Nat) (si : Bool) (fn : Nat) :
    drainLoop [f1, f2, b :: t] [] = b :: t ∧
    (save_frame W H si (SceneState.Render 0) [f1, f2, b :: t] fn).channel = [] ∧
    (save_frame W H si (SceneState.Render 0) [f1, f2, b :: t] fn).saved =
      [stripPadding (W * pixelSize) (alignCopyBytesPerRow (W * pixelSize)) H
        (b :: t)] ∧
    drainLoop ([] : List (List Nat)) [] = [] ∧
    save_frame W H si (SceneState.Render 0) [] fn =
      { state := SceneState.Render 0, channel := [], saved := [],
        exits := 0, fileNumber := fn } := by
  refine ⟨rfl, ?_, ?_, rfl, rfl⟩
  · simp [save_frame, drainLoop]
  · simp [save_frame, drainLoop]

/-- C9: the channel interface represents "no frame available" as the
empty byte vector — a `Render 0` tick whose drain loop ends on a
zero-length frame saves nothing, emits no termination signal and only
empties the channel, even when non-empty frames were drained (and
discarded) earlier in the same loop; a pushed empty frame is therefore
indistinguishable from an empty channel. -/
theorem empty_frame_is_none_sentinel (W H : Nat) (si : Bool) (fn : Nat)
    (ch : List (List Nat)) :
    save_frame W H si (SceneState.Render 0) (ch ++ [[]]) fn =
      { state := SceneState.Render 0, channel := [], saved := [],
        exits := 0, fileNumber := fn } ∧
    save_frame W H si (SceneState.Render 0) (ch ++ [[]]) fn =
      save_frame W H si (SceneState.Render 0) [] fn := by
  have hdrain : drainLoop (ch ++ [[]]) [] = [] := drainLoop_append_last [] ch []
  constructor <;> simp [save_frame, hdrain, drainLoop]

/-! ## Producer side: disabled targets and the pushed frame size -/

/-- C8: a capture target whose `enabled` flag reads `false` is skipped by
both producer-side loops — over any number of producer ticks, and
whatever the staging buffer holds at each tick, no copy command is issued
for it and no frame is ever pushed into the channel for it. -/
theorem disabled_copier_silent (w h : Nat) (buf : List Nat)
    (bufs : Nat → List Nat) (n : Nat) :
    commandsUpTo ⟨w, h, false, buf⟩ bufs n = [] ∧
    pushesUpTo ⟨w, h, false, buf⟩ bufs n = [] := by
  induction n with
  | zero => exact ⟨rfl, rfl⟩
  | succ n ih =>
    refine ⟨?_, ?_⟩
    · show commandsUpTo _ bufs n ++ imageCopyDriverRun _ = []
      rw [ih.1]
      rfl
    · show pushesUpTo _ bufs n ++ receive_image_from_buffer _ = []
      rw [ih.2]
      rfl

theorem align_four_width_le (W : Nat) :
    alignCopyBytesPerRow (4 * W) ≤ alignCopyBytesPerRow W * 4 := by
  simp only [alignCopyBytesPerRow_eq]
  omega

/-- C1 counterexample: at the application's own configuration
(`width = 1920`, `height = 1080`, 4-byte pixels) the frame pushed by
`receive_image_from_buffer` — the whole mapped staging buffer allocated
by `ImageCopier::new` — has 8 847 360 bytes, whereas
`PaddedLayout.total_size` = padded-row-bytes × height =
`ceil(4·1920/256)·256 · 1080` = 8 294 400 bytes; the claimed equality
fails because `ImageCopier::new` aligns the width in pixels and then
multiplies by 4. -/
theorem pushed_frame_size_counterexample :
    (receive_image_from_buffer
      [⟨1920, 1080, true, List.replicate (imageCopierBufferSize 1920 1080) 0⟩]).map
        List.length ≠ [paddedLayoutTotalSize 1920 1080] := by
  intro h
  have hr : receive_image_from_buffer
      [⟨1920, 1080, true, List.replicate (imageCopierBufferSize 1920 1080) 0⟩] =
      [List.replicate (imageCopierBufferSize 1920 1080) 0] := by
    simp [receive_image_from_buffer]
  rw [hr, List.map_cons, List.map_nil, List.length_replicate] at h
  have h2 : imageCopierBufferSize 1920 1080 = paddedLayoutTotalSize 1920 1080 :=
    List.head_eq_of_cons_eq h
  revert h2
  decide

/-- C1 as amended: for every enabled capture target whose staging buffer
has the size allocated by `ImageCopier::new`, the frame pushed per
completed copy+map cycle is the whole buffer, of length
`ceil(W/A)·A · 4 · H` (the alignment applied to the pixel width, then
scaled by the 4-byte pixel size); this is always at least
`PaddedLayout.total_size = ceil(4·W/A)·A · H`, so the buffer covers the
device copy, but it equals it only for favourable widths. -/
theorem pushed_frame_size_amended (c : ImageCopier)
    (hwf : c.buffer.length = imageCopierBufferSize c.width c.height)
    (hen : c.enabled = true) :
    receive_image_from_buffer [c] = [c.buffer] ∧
    c.buffer.length = alignCopyBytesPerRow c.width * 4 * c.height ∧
    paddedLayoutTotalSize c.width c.height ≤ c.buffer.length := by
  refine ⟨?_, hwf, ?_⟩
  · simp [receive_image_from_buffer, hen]
  · rw [hwf]
    unfold paddedLayoutTotalSize imageCopierBufferSize pixelSize
    exact Nat.mul_le_mul_right _ (align_four_width_le c.width)

/-- C1 witness: the amended statement instantiated at the application's
1920×1080 target. -/
theorem pushed_frame_size_amended_witness :
    receive_image_from_buffer
      [⟨1920, 1080, true, List.replicate (imageCopierBufferSize 1920 1080) 0⟩] =
      [List.replicate (imageCopierBufferSize 1920 1080) 0] ∧
    (List.replicate (imageCopierBufferSize 1920 1080) (0 : Nat)).length =
      alignCopyBytesPerRow 1920 * 4 * 1080 ∧
    paddedLayoutTotalSize 1920 1080 ≤
      (List.replicate (imageCopierBufferSize 1920 1080) (0 : Nat)).length :=
  pushed_frame_size_amended
    ⟨1920, 1080, true, List.replicate (imageCopierBufferSize 1920 1080) 0⟩
    (by rw [List.length_replicate]) rfl

/-! ## Single-shot policy over whole consumer runs -/

theorem save_frame_saved_length_le (W H : Nat) (si : Bool) (st : SceneState)
    (ch : List (List Nat)) (fn : Nat) :
    (save_frame W H si st ch fn).saved.length ≤ 1 := by
  cases st with
  | BuildScene => simp [save_frame]
  | Render n =>
    simp only [save_frame]
    split
    · split <;> simp
    · simp

theorem save_frame_exits_eq_saved_true (W H : Nat) (st : SceneState)
    (ch : List (List Nat)) (fn : Nat) :
    (save_frame W H true st ch fn).exits =
      (save_frame W H true st ch fn).saved.length := by
  cases st with
  | BuildScene => simp [save_frame]
  | Render n =>
    simp only [save_frame]
    split
    · split <;> simp
    · simp

theorem save_frame_exits_false (W H : Nat) (st : SceneState)
    (ch : List (List Nat)) (fn : Nat) :
    (save_frame W H false st ch fn).exits = 0 := by
  cases st with
  | BuildScene => simp [save_frame]
  | Render n =>
    simp only [save_frame]
    split
    · split <;> simp
    · simp

theorem save_frame_state_of_render0 (W H : Nat) (si : Bool)
    (ch : List (List Nat)) (fn : Nat) :
    (save_frame W H si (SceneState.Render 0) ch fn).state =
      SceneState.Render 0 := by
  simp only [save_frame]
  split
  · split <;> rfl
  · rfl

theorem runSession_true_once (W H : Nat) :
    ∀ (arrivals : List (List (List Nat))) (s : Session),
      s.exitCount = 0 → s.savedCount = 0 →
      (runSession W H true s arrivals).exitCount =
        (runSession W H true s arrivals).savedCount ∧
      (runSession W H true s arrivals).savedCount ≤ 1 := by
  intro arrivals
  induction arrivals with
  | nil =>
    intro s h0 hs
    simp only [runSession]
    omega
  | cons a rest ih =>
    intro s h0 hs
    simp only [runSession]
    have hex : (stepSession W H true s a).exitCount =
        (save_frame W H true s.st (s.channel ++ a) s.fileNumber).exits := by
      simp [stepSession, h0]
    have hsv : (stepSession W H true s a).savedCount =
        (save_frame W H true s.st (s.channel ++ a) s.fileNumber).saved.length := by
      simp [stepSession, hs]
    split
    · next hzero =>
      apply ih
      · exact hzero
      · rw [hsv, ← save_frame_exits_eq_saved_true, ← hex]
        exact hzero
    · next hnz =>
      refine ⟨?_, ?_⟩
      · rw [hex, hsv]
        exact save_frame_exits_eq_saved_true W H s.st (s.channel ++ a) s.fileNumber
      · rw [hsv]
        exact save_frame_saved_length_le W H true s.st (s.channel ++ a) s.fileNumber

theorem runSession_false_steady (W H : Nat) :
    ∀ (arrivals : List (List (List Nat))) (s : Session),
      s.exitCount = 0 → s.st = SceneState.Render 0 →
      (runSession W H false s arrivals).exitCount = 0 ∧
      (runSession W H false s arrivals).st = SceneState.Render 0 := by
  intro arrivals
  induction arrivals with
  | nil =>
    intro s h0 hr
    exact ⟨h0, hr⟩
  | cons a rest ih =>
    intro s h0 hr
    simp only [runSession]
    have hex : (stepSession W H false s a).exitCount = 0 := by
      show s.exitCount + (save_frame W H false s.st (s.channel ++ a) s.fileNumber).exits = 0
      rw [h0, save_frame_exits_false]
    rw [if_pos hex]
    apply ih _ hex
    show (save_frame W H false s.st (s.channel ++ a) s.fileNumber).state =
      SceneState.Render 0
    rw [hr]
    exact save_frame_state_of_render0 W H false (s.channel ++ a) s.fileNumber

theorem stepSession_saved_le (W H : Nat) (si : Bool) (s : Session)
    (a : List (List Nat)) :
    (stepSession W H si s a).savedCount ≤ s.savedCount + 1 := by
  show s.savedCount +
    (save_frame W H si s.st (s.channel ++ a) s.fileNumber).saved.length ≤
    s.savedCount + 1
  have := save_frame_saved_length_le W H si s.st (s.channel ++ a) s.fileNumber
  omega

theorem stepSession_save_fires (W H : Nat) (s : Session)
    (pre : List (List Nat)) (b : Nat) (bs : List Nat)
    (hr : s.st = SceneState.Render 0) :
    (stepSession W H true s (pre ++ [b :: bs])).exitCount = s.exitCount + 1 ∧
    (stepSession W H true s (pre ++ [b :: bs])).savedCount = s.savedCount + 1 := by
  have hd : drainLoop (s.channel ++ (pre ++ [b :: bs])) [] = b :: bs := by
    rw [← List.append_assoc]
    exact drainLoop_append_last (b :: bs) (s.channel ++ pre) []
  constructor
  · show s.exitCount + (save_frame W H true s.st _ s.fileNumber).exits = _
    rw [hr]
    simp [save_frame, hd]
  · show s.savedCount + (save_frame W H true s.st _ s.fileNumber).saved.length = _
    rw [hr]
    simp [save_frame, hd]

/-- C7: single-shot policy — starting from an armed session in
`Render 0` with no prior saves or exit signals: with
`single_image = true` any whole run emits exactly as many termination
signals as it performs saves and never more than one (the run stops at
the tick of the first save, whose step does save and emit — so the
signal is emitted exactly once and only with the first successful save);
with `single_image = false` a whole run never emits a termination signal
and stays in `Render 0` forever; and in either mode one consumer tick
saves at most one image. -/
theorem single_shot_policy (W H : Nat) (si : Bool) (s : Session)
    (arrivals : List (List (List Nat))) (a pre : List (List Nat))
    (b : Nat) (bs : List Nat)
    (h0 : s.exitCount = 0) (hs : s.savedCount = 0)
    (hr : s.st = SceneState.Render 0) :
    (runSession W H true s arrivals).exitCount =
      (runSession W H true s arrivals).savedCount ∧
    (runSession W H true s arrivals).savedCount ≤ 1 ∧
    (stepSession W H true s (pre ++ [b :: bs])).exitCount = 1 ∧
    (stepSession W H true s (pre ++ [b :: bs])).savedCount = 1 ∧
    (runSession W H false s arrivals).exitCount = 0 ∧
    (runSession W H false s arrivals).st = SceneState.Render 0 ∧
    (stepSession W H si s a).savedCount ≤ s.savedCount + 1 := by
  have h1 := runSession_true_once W H arrivals s h0 hs
  have h2 := runSession_false_steady W H arrivals s h0 hr
  have h3 := stepSession_save_fires W H s pre b bs hr
  exact ⟨h1.1, h1.2, by rw [h3.1, h0], by rw [h3.2, hs], h2.1, h2.2,
    stepSession_saved_le W H si s a⟩

/-- C7 witness: a session armed in `Render 0`, one tick bringing one
non-empty frame. -/
theorem single_shot_policy_witness :
    (runSession 1 1 true ⟨SceneState.Render 0, [], 0, 0, 0⟩
        [[[5]]]).exitCount =
      (runSession 1 1 true ⟨SceneState.Render 0, [], 0, 0, 0⟩
        [[[5]]]).savedCount ∧
    (runSession 1 1 true ⟨SceneState.Render 0, [], 0, 0, 0⟩
        [[[5]]]).savedCount ≤ 1 ∧
    (stepSession 1 1 true ⟨SceneState.Render 0, [], 0, 0, 0⟩
        ([] ++ [5 :: []])).exitCount = 1 ∧
    (stepSession 1 1 true ⟨SceneState.Render 0, [], 0, 0, 0⟩
        ([] ++ [5 :: []])).savedCount = 1 ∧
    (runSession 1 1 false ⟨SceneState.Render 0, [], 0, 0, 0⟩
        [[[5]]]).exitCount = 0 ∧
    (runSession 1 1 false ⟨SceneState.Render 0, [], 0, 0, 0⟩
        [[[5]]]).st = SceneState.Render 0 ∧
    (stepSession 1 1 true ⟨SceneState.Render 0, [], 0, 0, 0⟩
        [[5]]).savedCount ≤ 0 + 1 :=
  single_shot_policy 1 1 true ⟨SceneState.Render 0, [], 0, 0, 0⟩
    [[[5]]] [[5]] [] 5 [] rfl rfl rfl
